import Mathlib

/-!
# KClock alarms: next ring time, snooze / dismiss, persistence, wait worker

A shallow embedding of `src/alarms.cpp` and `src/alarmwaitworker.cpp`.

Conventions of the embedding

* C++ `int` / `qint64` values are integers of `ℤ`. The `int` arithmetic of
  `handleSnooze` wraps at 32 bits (`wrapInt`), and the bit tests
  `mask & (1 << k)` are computed on the 32-bit two's-complement pattern
  (`bits32`).
* The Qt value classes used by the code (`QTime`, `QDate`, `QDateTime`,
  `QJsonObject`) are embedded with the behaviour of the Qt 5 library:
  a `QTime` is a count of milliseconds since midnight with `-1` for the
  null/invalid time, a `QDate` is a Julian day number.
* The current date-time, the local-time-to-epoch conversion, the state of the
  timer descriptor, and the configured settings are inputs of the functions.
* The system calls `timerfd_settime` and `poll` follow their Linux manual
  pages; a call of `poll` that never returns is represented as such.
* Side effects (player, config file, signals) are returned as a trace.
-/

namespace KClock

/-! ## Qt value classes -/

/-- Time of day as Qt stores it: milliseconds since midnight, `-1` (NullTime)
for an invalid time. -/
structure QTime where
  mds : Int
  deriving DecidableEq

/-- Date as Qt stores it: the Julian day number. -/
structure QDate where
  jd : Int
  deriving DecidableEq

/-- Date-time in local time: a date and a time of day. -/
structure QDateTime where
  date : QDate
  time : QTime
  deriving DecidableEq

/-- The static check `QTime::isValid(h, m, s, ms)`:
`(uint)h < 24 && (uint)m < 60 && (uint)s < 60 && (uint)ms < 1000`. -/
def QTime.isValidHMS (h m s ms : Int) : Bool :=
  (0 ≤ h && h < 24) && (0 ≤ m && m < 60) && (0 ≤ s && s < 60) && (0 ≤ ms && ms < 1000)

/-- The constructor `QTime(h, m, s, ms)`, that is `setHMS`: an out-of-range
component makes the time invalid (`mds = NullTime = -1`). -/
def QTime.ofHMS (h m s ms : Int) : QTime :=
  if QTime.isValidHMS h m s ms then ⟨(h * 3600 + m * 60 + s) * 1000 + ms⟩ else ⟨-1⟩

/-- The member `QTime::isValid()`: `mds > NullTime && mds < MSECS_PER_DAY`. -/
def QTime.isValid (t : QTime) : Bool :=
  decide (-1 < t.mds) && decide (t.mds < 86400000)

/-- Qt compares times by their millisecond counts (`operator<`). -/
instance : LT QTime := ⟨fun a b => a.mds < b.mds⟩

/-- Qt compares times by their millisecond counts (`operator<=`). -/
instance : LE QTime := ⟨fun a b => a.mds ≤ b.mds⟩

instance (a b : QTime) : Decidable (a < b) := inferInstanceAs (Decidable (a.mds < b.mds))

instance (a b : QTime) : Decidable (a ≤ b) := inferInstanceAs (Decidable (a.mds ≤ b.mds))

/-- The member `QDate::dayOfWeek()` of a valid date, 1 = Monday .. 7 = Sunday:
`jd >= 0 ? (jd % 7) + 1 : ((jd + 1) % 7) + 7` with the truncating `%` of C++. -/
def QDate.dayOfWeek (d : QDate) : Int :=
  if d.jd ≥ 0 then Int.tmod d.jd 7 + 1 else Int.tmod (d.jd + 1) 7 + 7

/-- The member `QDate::addDays(n)`. The range check of Qt (Julian days beyond
about 7.8e11 in absolute value) is not represented. -/
def QDate.addDays (d : QDate) (n : Int) : QDate := ⟨d.jd + n⟩

/-- The member `QDateTime::addDays(n)`: the date moves, the time of day stays. -/
def QDateTime.addDays (dt : QDateTime) (n : Int) : QDateTime :=
  { dt with date := dt.date.addDays n }

/-- The constructor `QDateTime(date, time)`: with a valid date and an invalid
time Qt sets the time to midnight. -/
def QDateTime.ofDateTime (date : QDate) (time : QTime) : QDateTime :=
  ⟨date, if time.isValid then time else ⟨0⟩⟩

/-- Order of two local date-times: earlier date, or same date and
time of day not later. -/
def QDateTime.notAfter (x y : QDateTime) : Prop :=
  x.date.jd < y.date.jd ∨ (x.date.jd = y.date.jd ∧ x.time.mds ≤ y.time.mds)

instance (x y : QDateTime) : Decidable (QDateTime.notAfter x y) :=
  inferInstanceAs (Decidable (_ ∨ _))

/-- A conversion from local date-times to epoch seconds (what
`toSecsSinceEpoch` does under the time zone of the host) is monotone when it
keeps the order of date-times with a valid time of day. -/
def ZoneMonotone (toSecsSinceEpoch : QDateTime → Int) : Prop :=
  ∀ x y : QDateTime, x.time.isValid = true → y.time.isValid = true →
    QDateTime.notAfter x y → toSecsSinceEpoch x ≤ toSecsSinceEpoch y

/-- The conversion `toSecsSinceEpoch` for a zone at a fixed offset (seconds east
of UTC): Julian day 2440588 is 1970-01-01. -/
def fixedOffsetSecs (offset : Int) (dt : QDateTime) : Int :=
  (dt.date.jd - 2440588) * 86400 + dt.time.mds / 1000 - offset

/-- The 32-bit two's-complement pattern of a C++ `int`. -/
def bits32 (x : Int) : Nat := (x % 4294967296).toNat

/-- The value fits a 32-bit C++ `int`. -/
def fitsInt (x : Int) : Prop := -2147483648 ≤ x ∧ x ≤ 2147483647

instance (x : Int) : Decidable (fitsInt x) := inferInstanceAs (Decidable (_ ∧ _))

/-- The result of 32-bit `int` arithmetic: the exact value reduced to the
two's-complement range. -/
def wrapInt (x : Int) : Int := (x + 2147483648) % 4294967296 - 2147483648

/-- Bit `k` of the mask is set: `(mask & (1 << k)) != 0`. -/
def bitSet (mask : Int) (k : Nat) : Prop := (bits32 mask &&& (1 <<< k)) ≠ 0

instance (mask : Int) (k : Nat) : Decidable (bitSet mask k) :=
  inferInstanceAs (Decidable (_ ≠ _))

/-! ## JSON documents -/

/-- Values of a `QJsonObject` member. -/
inductive QJsonValue
  | undefined
  | bool (b : Bool)
  | number (n : Int)
  | string (s : String)
  deriving DecidableEq

/-- The member `QJsonValue::toInt()`: the number when it fits an `int`, else 0. -/
def QJsonValue.toInt : QJsonValue → Int
  | .number n => if -2147483648 ≤ n ∧ n ≤ 2147483647 then n else 0
  | _ => 0

/-- The member `QJsonValue::toBool()`, `false` when the value is not a boolean. -/
def QJsonValue.toBool : QJsonValue → Bool
  | .bool b => b
  | _ => false

/-- The member `QJsonValue::toString()`, empty when the value is not a string. -/
def QJsonValue.toString : QJsonValue → String
  | .string s => s
  | _ => ""

/-- An object is a list of members. -/
abbrev QJsonObject := List (String × QJsonValue)

/-- Reading `obj[key]`: the member, or `undefined` when it is absent. -/
def QJsonObject.get (obj : QJsonObject) (key : String) : QJsonValue :=
  match obj.find? (fun kv => kv.1 == key) with
  | some kv => kv.2
  | none => .undefined

/-- Writing `obj[key] = v`: replaces the member or adds it. -/
def QJsonObject.set (obj : QJsonObject) (key : String) (v : QJsonValue) : QJsonObject :=
  if obj.any (fun kv => kv.1 == key) then
    obj.map (fun kv => if kv.1 == key then (key, v) else kv)
  else obj ++ [(key, v)]

/-- A serialized alarm (a `QString`), represented by what
`QJsonDocument::fromJson(...).object()` reads from it: `empty` is the empty
string, `json obj` is the compact text of `obj`. -/
inductive Serialized
  | empty
  | json (obj : QJsonObject)
  deriving DecidableEq

/-! ## The alarm -/

/-- The looping ringtone player owned by an alarm. -/
structure QMediaPlayer where
  volume : Int
  media : String
  playing : Bool
  deriving DecidableEq

/-- The member variables of `Alarm`. The identifier is kept in its textual form
(`QUuid::toString`) and the ringtone url as its local file path
(`QUrl::toLocalFile`). -/
structure Alarm where
  uuid_ : String
  name_ : String
  minutes_ : Int
  hours_ : Int
  daysOfWeek_ : Int
  enabled_ : Bool
  lastAlarm_ : Int
  snooze_ : Int
  lastSnooze_ : Int
  ringtoneName_ : String
  audioPath_ : String
  volume_ : Int
  alarmNotifOpen : Bool
  ringtonePlayer : QMediaPlayer
  deriving DecidableEq

/-- The settings read by the alarm (`KClockSettings`). -/
structure KClockSettings where
  alarmSnoozeLength : Int
  alarmSilenceAfter : Int
  deriving DecidableEq

/-- What an alarm does to its surroundings. -/
inductive Effect
  | playerStop
  | writeEntry (key : String) (value : Serialized)
  | propertyChanged
  deriving DecidableEq

namespace Alarm

/-- Modelled from the spec: the setter `setSnooze` is declared in `alarms.h`,
which is not among the sources; it stores the snooze offset. -/
def setSnooze (a : Alarm) (snooze : Int) : Alarm := { a with snooze_ := snooze }

/-- Modelled from the spec: the setter `setLastSnooze` is declared in `alarms.h`,
which is not among the sources; it stores the last snooze offset. -/
def setLastSnooze (a : Alarm) (lastSnooze : Int) : Alarm := { a with lastSnooze_ := lastSnooze }

/-- Modelled from the spec: the setter `setEnabled` is declared in `alarms.h`,
which is not among the sources; it stores the enabled flag. -/
def setEnabled (a : Alarm) (enabled : Bool) : Alarm := { a with enabled_ := enabled }

/-- The method `Alarm::serialize` (alarm to json). -/
def serialize (a : Alarm) : Serialized :=
  let obj : QJsonObject := []
  let obj := obj.set "uuid" (.string a.uuid_)
  let obj := obj.set "name" (.string a.name_)
  let obj := obj.set "minutes" (.number a.minutes_)
  let obj := obj.set "hours" (.number a.hours_)
  let obj := obj.set "daysOfWeek" (.number a.daysOfWeek_)
  let obj := obj.set "enabled" (.bool a.enabled_)
  let obj := obj.set "lastAlarm" (.number a.lastAlarm_)
  let obj := obj.set "snooze" (.number a.snooze_)
  let obj := obj.set "lastSnooze" (.number a.lastSnooze_)
  let obj := obj.set "ringtoneName" (.string a.ringtoneName_)
  let obj := obj.set "audioPath" (.string a.audioPath_)
  let obj := obj.set "volume" (.number a.volume_)
  .json obj

/-- The constructor `Alarm::Alarm(QString serialized, AlarmModel *parent)`
(alarm from json). `dflt` holds the member initializers of `alarms.h`
(not among the sources) and `fresh` is what `QUuid::createUuid()` returns. -/
def ofSerialized (dflt : Alarm) (fresh : String) (serialized : Serialized) : Alarm :=
  let a : Alarm :=
    match serialized with
    | .empty => { dflt with uuid_ := fresh }
    | .json obj =>
      { dflt with
        uuid_ := (obj.get "uuid").toString
        name_ := (obj.get "name").toString
        minutes_ := (obj.get "minutes").toInt
        hours_ := (obj.get "hours").toInt
        daysOfWeek_ := (obj.get "daysOfWeek").toInt
        enabled_ := (obj.get "enabled").toBool
        snooze_ := (obj.get "snooze").toInt
        lastSnooze_ := (obj.get "lastSnooze").toInt
        ringtoneName_ := (obj.get "ringtoneName").toString
        audioPath_ := (obj.get "audioPath").toString
        volume_ := (obj.get "volume").toInt }
  { a with ringtonePlayer := ⟨a.volume_, a.audioPath_, false⟩ }

/-- The method `Alarm::save`: writes the serialized alarm under its identifier. -/
def save (a : Alarm) : Effect := .writeEntry a.uuid_ a.serialize

/-- The method `Alarm::handleDismiss`. -/
def handleDismiss (a : Alarm) : Alarm × List Effect :=
  let a := { a with alarmNotifOpen := false }
  let a := { a with ringtonePlayer := { a.ringtonePlayer with playing := false } }
  let a := a.setLastSnooze 0
  (a, [.playerStop, a.save])

/-- The method `Alarm::handleSnooze`. The sum
`lastSnooze() + 60 * settings.alarmSnoozeLength()` is `int` arithmetic. -/
def handleSnooze (settings : KClockSettings) (a : Alarm) : Alarm × List Effect :=
  let a := { a with alarmNotifOpen := false }
  let a := { a with ringtonePlayer := { a.ringtonePlayer with playing := false } }
  let a := a.setSnooze (wrapInt (a.lastSnooze_ + wrapInt (60 * settings.alarmSnoozeLength)))
  let a := a.setLastSnooze a.snooze_
  let a := a.setEnabled true
  (a, [.playerStop, a.save, .propertyChanged])

/-- The alarm time of `nextRingTime`: `QTime(hours_, minutes_, snooze_)`. -/
def alarmTime (a : Alarm) : QTime := QTime.ofHMS a.hours_ a.minutes_ a.snooze_ 0

/-- The condition of the `while` loop of `nextRingTime`: the day of `date` is
not selected, or this is the first day and the alarm time is still ahead. -/
def loopCond (a : Alarm) (date : QDateTime) (first : Bool) : Bool :=
  ((bits32 a.daysOfWeek_ &&& (1 <<< (date.date.dayOfWeek - 1).toNat)) == 0)
    || (first && decide (a.alarmTime > date.time))

/-- The `while` loop of `nextRingTime`, run for at most `fuel` evaluations of
its condition: `some date` is the date-time at which the loop exits, `none`
means the loop is still running. -/
def ringLoop (a : Alarm) : Nat → QDateTime → Bool → Option QDateTime
  | 0, _, _ => none
  | fuel + 1, date, first =>
    if a.loopCond date first then ringLoop a fuel (date.addDays (-1)) false
    else some date

/-- The method `Alarm::nextRingTime`. `now` is `QDateTime::currentDateTime()`,
`toSecsSinceEpoch` the conversion of the host zone; `none` means that the
search loop did not exit within `fuel` evaluations of its condition. -/
def nextRingTime (toSecsSinceEpoch : QDateTime → Int) (now : QDateTime) (fuel : Nat)
    (a : Alarm) : Option Int :=
  if !a.enabled_ then some (-1)
  else
    let date := now
    let alarmTime := a.alarmTime
    if a.daysOfWeek_ == 0 then
      if alarmTime ≥ date.time then
        some (toSecsSinceEpoch (QDateTime.ofDateTime date.date alarmTime))
      else some (-1)
    else
      match ringLoop a fuel date true with
      | some date => some (toSecsSinceEpoch (QDateTime.ofDateTime date.date alarmTime))
      | none => none

/-- The acceptance condition of the backward search for a date `d`: its weekday
is selected, and it is not the starting date or the alarm time has come. -/
def accepts (a : Alarm) (now : QDateTime) (d : QDate) : Prop :=
  bitSet a.daysOfWeek_ (d.dayOfWeek - 1).toNat ∧ (d ≠ now.date ∨ a.alarmTime ≤ now.time)

end Alarm

/-! ## The wait worker -/

/-- The member variables of `AlarmWaitWorker`. -/
structure AlarmWaitWorker where
  m_timerFd : Int
  m_waitEndTime : Int
  deriving DecidableEq

/-- What the worker does: system calls and emitted signals. -/
inductive WaitEffect
  | timerfdSettime (fd : Int) (tvSec : Int)
  | poll (fd : Int)
  | error
  | finished
  | startWait
  deriving DecidableEq

/-- The constant `POLLNVAL` of `poll.h`. -/
def POLLNVAL : Nat := 32

/-- The constant `POLLIN` of `poll.h`. -/
def POLLIN : Nat := 1

/-- What the host does during one call of `wait`: whether `m_timerFd` (when it
is not negative) names an open timer descriptor, and whether a signal handler
interrupts `poll` while it blocks, leaving the given value in `revents`. -/
structure Host where
  timerOpen : Bool
  interrupted : Option Int
  deriving DecidableEq

/-- The call `timerfd_settime(fd, TFD_TIMER_ABSTIME, {tvSec, 0}, nullptr)` for
`tvSec >= 0`: tells whether the timer is armed afterwards. A zero time disarms
the timer; on a descriptor that is no open timer the call fails. -/
def Host.timerfdSettime (h : Host) (fd tvSec : Int) : Bool :=
  decide (0 ≤ fd) && h.timerOpen && decide (0 < tvSec)

/-- The call `poll(&fd, 1, -1)` with events `POLLIN | POLLPRI`: `some revents`
when the call returns, `none` when it blocks for ever. A negative descriptor is
ignored, a descriptor that is not open is reported with `POLLNVAL` at once, an
armed timer becomes readable when the clock reaches its absolute time, and a
disarmed timer never does. -/
def Host.poll (h : Host) (fd : Int) (armed : Bool) : Option Int :=
  if fd < 0 then h.interrupted
  else if !h.timerOpen then some (POLLNVAL : Nat)
  else if armed then some (h.interrupted.getD (POLLIN : Nat))
  else h.interrupted

/-- One call of `wait`: the system calls and signals in order, and whether the
call returns. -/
structure WaitRun where
  trace : List WaitEffect
  returned : Bool
  deriving DecidableEq

/-- The method `AlarmWaitWorker::wait`. -/
def AlarmWaitWorker.wait (h : Host) (w : AlarmWaitWorker) : WaitRun :=
  if w.m_waitEndTime < 0 then ⟨[], true⟩
  else
    let armed := h.timerfdSettime w.m_timerFd w.m_waitEndTime
    let calls := [WaitEffect.timerfdSettime w.m_timerFd w.m_waitEndTime, .poll w.m_timerFd]
    match h.poll w.m_timerFd armed with
    | none => ⟨calls, false⟩
    | some revents =>
      if (bits32 revents &&& POLLNVAL) ≠ 0 then ⟨calls ++ [.error], true⟩
      else ⟨calls ++ [.finished], true⟩

/-- The method `AlarmWaitWorker::setNewTime`, up to the emitted `startWait`. -/
def AlarmWaitWorker.setNewTime (w : AlarmWaitWorker) (timestamp : Int) :
    AlarmWaitWorker × List WaitEffect :=
  let w := { w with m_waitEndTime := timestamp }
  (w, [.timerfdSettime w.m_timerFd w.m_waitEndTime, .startWait])

/-! ## Sample data -/

/-- An alarm at 07:00 that does not repeat, as created from the UI. -/
def sampleAlarm : Alarm :=
  { uuid_ := "\x7b6f1c2a9e-0000-4000-8000-000000000001\x7d", name_ := "wake", minutes_ := 0,
    hours_ := 7, daysOfWeek_ := 0, enabled_ := true, lastAlarm_ := 0, snooze_ := 0,
    lastSnooze_ := 0, ringtoneName_ := "default", audioPath_ := "/usr/share/sounds/alarm.oga",
    volume_ := 100, alarmNotifOpen := false,
    ringtonePlayer := ⟨100, "/usr/share/sounds/alarm.oga", false⟩ }

/-- Settings with the snooze length of five minutes. -/
def sampleSettings : KClockSettings := ⟨5, 30⟩

/-- Wednesday 2020-06-10 (Julian day 2459011), 07:00:30 local time. -/
def sampleNow : QDateTime := ⟨⟨2459011⟩, ⟨25230000⟩⟩

/-- The sample alarm moved to 07:01 and repeating on Wednesdays (bit 2). -/
def weeklyAlarm : Alarm := { sampleAlarm with daysOfWeek_ := 4, minutes_ := 1 }

/-- The sample alarm with a non-zero mask outside the seven weekday bits. -/
def maskedAlarm : Alarm := { sampleAlarm with daysOfWeek_ := 128 }

/-- The sample alarm moved to 07:01, still ahead of the sample time. -/
def pendingAlarm : Alarm := { sampleAlarm with minutes_ := 1 }

/-- A disabled alarm that repeats every day. -/
def disabledAlarm : Alarm := { sampleAlarm with enabled_ := false, daysOfWeek_ := 127 }

/-- The sample alarm after one snooze of five minutes. -/
def snoozedAlarm : Alarm := (sampleAlarm.handleSnooze sampleSettings).1

/-- The sample alarm with a recorded last ring (2020-06-10 07:00:00 UTC). -/
def rungAlarm : Alarm := { sampleAlarm with lastAlarm_ := 1591772400 }

/-- The weekly alarm after one snooze of five minutes (07:01 plus 300 seconds). -/
def snoozedWeeklyAlarm : Alarm := (weeklyAlarm.handleSnooze sampleSettings).1

/-- The sample alarm with a last snooze near the top of the `int` range. -/
def overflowAlarm : Alarm :=
  { sampleAlarm with snooze_ := 2147483600, lastSnooze_ := 2147483600 }

/-- A host whose timer descriptor is open and where no signal interrupts. -/
def quietHost : Host := ⟨true, none⟩

/-- A worker with descriptor 3 and the deadline 0. -/
def epochWorker : AlarmWaitWorker := ⟨3, 0⟩

/-- A worker whose `timerfd_create` failed (descriptor -1), with a deadline. -/
def failedWorker : AlarmWaitWorker := ⟨-1, 1591772700⟩

/-- A worker with descriptor 3 and a deadline. -/
def armedWorker : AlarmWaitWorker := ⟨3, 1591772700⟩

/-! ## Properties -/

/-- Qt's two-branch formula is the Euclidean remainder of the Julian day plus one. -/
theorem QDate.dayOfWeek_eq (d : QDate) : d.dayOfWeek = d.jd % 7 + 1 := by
  unfold QDate.dayOfWeek
  split
  · rename_i h
    rw [Int.tmod_eq_emod h (by decide)]
  · rename_i h
    obtain ⟨n, hn⟩ : ∃ n : Nat, d.jd = -(n : Int) - 1 := ⟨(-d.jd - 1).toNat, by omega⟩
    have h1 : d.jd + 1 = -(n : Int) := by omega
    rw [h1]
    rcases n with _ | m
    · simp at hn ⊢
      omega
    · have h2 : -((m + 1 : Nat) : Int) = Int.negSucc m := rfl
      rw [h2]
      show -((Nat.succ m % 7 : Nat) : Int) + 7 = _
      omega

/-- The bit index `dayOfWeek - 1` is the Euclidean remainder of the Julian day. -/
theorem QDate.dayOfWeek_index (d : QDate) : (d.dayOfWeek - 1).toNat = (d.jd % 7).toNat := by
  rw [QDate.dayOfWeek_eq]
  congr 1
  omega

/-- Going back zero days leaves the date-time as it is. -/
theorem QDateTime.addDays_zero (dt : QDateTime) : dt.addDays (-((0 : Nat) : Int)) = dt := by
  simp [QDateTime.addDays, QDate.addDays]

/-- Going back one day and then `j` days is going back `j + 1` days. -/
theorem QDateTime.addDays_succ (dt : QDateTime) (j : Nat) :
    (dt.addDays (-1)).addDays (-(j : Int)) = dt.addDays (-((j + 1 : Nat) : Int)) := by
  simp only [QDateTime.addDays, QDate.addDays, Nat.cast_add, Nat.cast_one]
  congr 2
  omega

/-- The loop exits `k` days back when its condition holds on the `k` days before
that and fails there, given fuel for `k + 1` evaluations. -/
theorem Alarm.ringLoop_exit (a : Alarm) :
    ∀ (k fuel : Nat) (date : QDateTime) (first : Bool),
      (∀ j, j < k → a.loopCond (date.addDays (-(j : Int))) (first && decide (j = 0)) = true) →
      a.loopCond (date.addDays (-(k : Int))) (first && decide (k = 0)) = false →
      k < fuel → a.ringLoop fuel date first = some (date.addDays (-(k : Int))) := by
  intro k
  induction k with
  | zero =>
    intro fuel date first _ hk hf
    obtain ⟨f, rfl⟩ : ∃ f, fuel = f + 1 := ⟨fuel - 1, by omega⟩
    rw [QDateTime.addDays_zero] at hk
    simp at hk
    simp [Alarm.ringLoop, hk, QDateTime.addDays, QDate.addDays]
  | succ k ih =>
    intro fuel date first hj hk hf
    obtain ⟨f, rfl⟩ : ∃ f, fuel = f + 1 := ⟨fuel - 1, by omega⟩
    have h0 := hj 0 (by omega)
    rw [QDateTime.addDays_zero] at h0
    simp at h0
    rw [Alarm.ringLoop, if_pos h0]
    rw [ih f (date.addDays (-1)) false _ _ (by omega), QDateTime.addDays_succ]
    · intro j hjk
      have := hj (j + 1) (by omega)
      rw [QDateTime.addDays_succ]
      simpa using this
    · rw [QDateTime.addDays_succ]
      simpa using hk

/-- The loop is still running while its condition has held at every evaluation. -/
theorem Alarm.ringLoop_running (a : Alarm) :
    ∀ (fuel : Nat) (date : QDateTime) (first : Bool),
      (∀ j, j < fuel → a.loopCond (date.addDays (-(j : Int))) (first && decide (j = 0)) = true) →
      a.ringLoop fuel date first = none := by
  intro fuel
  induction fuel with
  | zero => intro date first _; rfl
  | succ f ih =>
    intro date first hj
    have h0 := hj 0 (by omega)
    rw [QDateTime.addDays_zero] at h0
    simp at h0
    rw [Alarm.ringLoop, if_pos h0]
    apply ih
    intro j hjf
    have := hj (j + 1) (by omega)
    rw [QDateTime.addDays_succ]
    simpa using this

/-- Unfolding of `<` on times. -/
theorem QTime.lt_def (x y : QTime) : (x < y) = (x.mds < y.mds) := rfl

/-- Unfolding of `≤` on times. -/
theorem QTime.le_def (x y : QTime) : (x ≤ y) = (x.mds ≤ y.mds) := rfl

/-- Going back `j` days gives another date exactly when `j` is not zero. -/
theorem QDate.addDays_ne (d : QDate) (j : Nat) : d.addDays (-(j : Int)) ≠ d ↔ j ≠ 0 := by
  constructor
  · intro h hj
    apply h
    subst hj
    simp [QDate.addDays]
  · intro h he
    have := congrArg QDate.jd he
    simp [QDate.addDays] at this
    exact h this

/-- The loop condition fails `j` days back exactly when that date is accepted. -/
theorem Alarm.loopCond_false_iff (a : Alarm) (now : QDateTime) (j : Nat) :
    a.loopCond (now.addDays (-(j : Int))) (decide (j = 0)) = false ↔
      a.accepts now (now.date.addDays (-(j : Int))) := by
  unfold Alarm.loopCond Alarm.accepts bitSet
  rw [QDate.addDays_ne]
  simp only [QDateTime.addDays, Bool.or_eq_false_iff, beq_eq_false_iff_ne, Bool.and_eq_false_iff,
    decide_eq_false_iff_not, gt_iff_lt, QTime.lt_def, QTime.le_def, not_lt, ne_eq]

/-- The loop condition holds `j` days back exactly when that date is not accepted. -/
theorem Alarm.loopCond_true_iff (a : Alarm) (now : QDateTime) (j : Nat) :
    a.loopCond (now.addDays (-(j : Int))) (decide (j = 0)) = true ↔
      ¬ a.accepts now (now.date.addDays (-(j : Int))) := by
  rw [← Alarm.loopCond_false_iff]
  simp

/-- Every weekday occurs among the seven days before a date. -/
theorem QDate.weekday_within_week (d : QDate) (b : Nat) (hb : b < 7) :
    ∃ j : Nat, 1 ≤ j ∧ j ≤ 7 ∧ ((d.addDays (-(j : Int))).dayOfWeek - 1).toNat = b := by
  refine ⟨(if (d.jd - b) % 7 = 0 then 7 else (d.jd - b) % 7).toNat, ?_, ?_, ?_⟩
  · split <;> omega
  · split <;> omega
  · rw [QDate.dayOfWeek_index]
    simp only [QDate.addDays]
    split <;> omega

/-- With one of the seven weekday bits set there is a least number of days back,
at most seven, at which the date is accepted. -/
theorem Alarm.search_index (a : Alarm) (now : QDateTime)
    (hmask : ∃ b, b < 7 ∧ bitSet a.daysOfWeek_ b) :
    ∃ k : Nat, k ≤ 7 ∧ a.accepts now (now.date.addDays (-(k : Int))) ∧
      ∀ j, j < k → ¬ a.accepts now (now.date.addDays (-(j : Int))) := by
  obtain ⟨b, hb, hset⟩ := hmask
  obtain ⟨j, hj1, hj7, hjb⟩ := QDate.weekday_within_week now.date b hb
  have hacc : a.accepts now (now.date.addDays (-(j : Int))) := by
    refine ⟨by rw [hjb]; exact hset, Or.inl ?_⟩
    rw [QDate.addDays_ne]
    omega
  classical
  have hex : ∃ k : Nat, a.accepts now (now.date.addDays (-(k : Int))) := ⟨j, hacc⟩
  refine ⟨Nat.find hex, ?_, Nat.find_spec hex, fun i hi => Nat.find_min hex hi⟩
  exact le_trans (Nat.find_min' hex hacc) hj7

/-- A mask with a bit set is not zero. -/
theorem bitSet_ne_zero (mask : Int) (k : Nat) (h : bitSet mask k) : mask ≠ 0 := by
  intro h0
  subst h0
  exact h (by simp [bits32])

/-- The date-time constructor always leaves a valid time of day. -/
theorem QDateTime.ofDateTime_valid (d : QDate) (t : QTime) :
    (QDateTime.ofDateTime d t).time.isValid = true := by
  unfold QDateTime.ofDateTime
  by_cases h : t.isValid = true
  · simp [h]
  · simp only [h, if_false, Bool.false_eq_true]
    decide

/-- The loop started today exits at the least accepted number of days back. -/
theorem Alarm.ringLoop_of_index (a : Alarm) (now : QDateTime) (k fuel : Nat)
    (hacc : a.accepts now (now.date.addDays (-(k : Int))))
    (hmin : ∀ j, j < k → ¬ a.accepts now (now.date.addDays (-(j : Int))))
    (hf : k < fuel) : a.ringLoop fuel now true = some (now.addDays (-(k : Int))) := by
  apply Alarm.ringLoop_exit a k fuel now true _ _ hf
  · intro j hj
    rw [Bool.true_and, Alarm.loopCond_true_iff]
    exact hmin j hj
  · rw [Bool.true_and, Alarm.loopCond_false_iff]
    exact hacc

/-- For an enabled alarm with a non-zero mask, `nextRingTime` converts the exit
date of the loop combined with the alarm time. -/
theorem Alarm.nextRingTime_repeat (toSecs : QDateTime → Int) (now : QDateTime) (fuel : Nat)
    (a : Alarm) (hen : a.enabled_ = true) (hmask : a.daysOfWeek_ ≠ 0) :
    a.nextRingTime toSecs now fuel =
      (a.ringLoop fuel now true).map
        (fun date => toSecs (QDateTime.ofDateTime date.date a.alarmTime)) := by
  unfold Alarm.nextRingTime
  simp only [hen, Bool.not_true, Bool.false_eq_true, if_false, beq_iff_eq, hmask]
  cases a.ringLoop fuel now true <;> rfl

/-- An accepted occurrence is not after now in local time. -/
theorem Alarm.occurrence_notAfter (a : Alarm) (now : QDateTime) (k : Nat)
    (hnow : now.time.isValid = true)
    (hacc : a.accepts now (now.date.addDays (-(k : Int)))) :
    QDateTime.notAfter (QDateTime.ofDateTime (now.date.addDays (-(k : Int))) a.alarmTime) now := by
  unfold QDateTime.notAfter QDateTime.ofDateTime
  simp only [QDate.addDays]
  rcases Nat.eq_zero_or_pos k with hk | hk
  · right
    subst hk
    rcases hacc.2 with h | h
    · exact absurd (by simp [QDate.addDays]) h
    · rw [QTime.le_def] at h
      simp only [QTime.isValid, Bool.and_eq_true, decide_eq_true_eq] at hnow
      refine ⟨by simp, ?_⟩
      split
      · exact h
      · show (0 : Int) ≤ now.time.mds
        omega
  · left
    omega

/-- The conversion of a fixed-offset zone is monotone. -/
theorem fixedOffsetSecs_monotone (offset : Int) : ZoneMonotone (fixedOffsetSecs offset) := by
  intro x y hx hy hxy
  simp only [QTime.isValid, Bool.and_eq_true, decide_eq_true_eq] at hx hy
  unfold fixedOffsetSecs
  rcases hxy with h | ⟨h1, h2⟩
  · omega
  · omega

/-- A date not after `d` is `d` moved back by the difference of the Julian days. -/
theorem QDate.eq_addDays (d e : QDate) (h : e.jd ≤ d.jd) :
    e = d.addDays (-((d.jd - e.jd).toNat : Int)) := by
  cases e
  simp only [QDate.addDays, QDate.mk.injEq]
  simp only at h
  omega

/-- The day of week lies between 1 and 7. -/
theorem QDate.dayOfWeek_range (d : QDate) : 1 ≤ d.dayOfWeek ∧ d.dayOfWeek ≤ 7 := by
  rw [QDate.dayOfWeek_eq]
  omega

/-- The search goes a full week back exactly when today is the only selected
weekday and the alarm time is still ahead. -/
theorem Alarm.week_back_iff (a : Alarm) (now : QDateTime) (k : Nat) (hk7 : k ≤ 7)
    (hacc : a.accepts now (now.date.addDays (-(k : Int))))
    (hmin : ∀ j, j < k → ¬ a.accepts now (now.date.addDays (-(j : Int)))) :
    k = 7 ↔ (bitSet a.daysOfWeek_ (now.date.dayOfWeek - 1).toNat ∧
      (∀ b, b < 7 → bitSet a.daysOfWeek_ b → b = (now.date.dayOfWeek - 1).toNat) ∧
      a.alarmTime > now.time) := by
  constructor
  · intro hk
    subst hk
    have hidx : ((now.date.addDays (-((7 : Nat) : Int))).dayOfWeek - 1).toNat
        = (now.date.dayOfWeek - 1).toNat := by
      rw [QDate.dayOfWeek_index, QDate.dayOfWeek_index]
      simp only [QDate.addDays]
      omega
    have htoday : bitSet a.daysOfWeek_ (now.date.dayOfWeek - 1).toNat := by
      rw [← hidx]; exact hacc.1
    refine ⟨htoday, ?_, ?_⟩
    · intro b hb hset
      by_contra hne
      obtain ⟨j, hj1, hj7, hjb⟩ := QDate.weekday_within_week now.date b hb
      have hj : j < 7 := by
        rcases Nat.lt_or_ge j 7 with h | h
        · exact h
        · have : j = 7 := by omega
          subst this
          rw [hidx] at hjb
          exact absurd hjb.symm hne
      apply hmin j hj
      refine ⟨by rw [hjb]; exact hset, Or.inl ?_⟩
      rw [QDate.addDays_ne]
      omega
    · have h0 := hmin 0 (by omega)
      by_contra hle
      apply h0
      refine ⟨by simpa [QDate.addDays] using htoday, Or.inr ?_⟩
      rw [QTime.le_def]
      rw [gt_iff_lt, QTime.lt_def] at hle
      omega
  · rintro ⟨_, hsole, hgt⟩
    by_contra hne
    have hlt : k < 7 := by omega
    have hsame := hsole _ (by rw [QDate.dayOfWeek_index]; omega) hacc.1
    rw [QDate.dayOfWeek_index, QDate.dayOfWeek_index] at hsame
    simp only [QDate.addDays] at hsame
    have hk0 : k = 0 := by omega
    subst hk0
    rcases hacc.2 with h | h
    · exact h (by simp [QDate.addDays])
    · rw [QTime.le_def] at h
      rw [gt_iff_lt, QTime.lt_def] at hgt
      omega

/-- C10: for an enabled alarm whose mask selects at least one of the seven
weekdays the backward search exits after `k ≤ 7` steps back (it needs exactly
`k + 1` evaluations of the loop condition), the returned occurrence lies `k`
days before today, is not later than now (as a local date-time, and in epoch
seconds under a monotone zone conversion), and `k = 7` exactly when today is
the only selected weekday and the alarm time is still ahead. With a non-zero
mask that selects none of the seven weekdays no date is accepted and the loop
never exits. -/
theorem Alarm.nextRingTime_search_bound (toSecs : QDateTime → Int) (now : QDateTime) (a : Alarm)
    (hen : a.enabled_ = true) (hnow : now.time.isValid = true) (hmono : ZoneMonotone toSecs) :
    ((∃ b, b < 7 ∧ bitSet a.daysOfWeek_ b) →
      ∃ k : Nat, k ≤ 7 ∧
        (∀ fuel, k < fuel → a.ringLoop fuel now true = some (now.addDays (-(k : Int)))) ∧
        (∀ fuel, fuel ≤ k → a.ringLoop fuel now true = none) ∧
        (∀ fuel, 8 ≤ fuel → a.nextRingTime toSecs now fuel =
          some (toSecs (QDateTime.ofDateTime (now.date.addDays (-(k : Int))) a.alarmTime))) ∧
        QDateTime.notAfter
          (QDateTime.ofDateTime (now.date.addDays (-(k : Int))) a.alarmTime) now ∧
        toSecs (QDateTime.ofDateTime (now.date.addDays (-(k : Int))) a.alarmTime) ≤ toSecs now ∧
        (k = 7 ↔ (bitSet a.daysOfWeek_ (now.date.dayOfWeek - 1).toNat ∧
          (∀ b, b < 7 → bitSet a.daysOfWeek_ b → b = (now.date.dayOfWeek - 1).toNat) ∧
          a.alarmTime > now.time))) ∧
    (a.daysOfWeek_ ≠ 0 → (∀ b, b < 7 → ¬ bitSet a.daysOfWeek_ b) →
      (∀ d : QDate, ¬ a.accepts now d) ∧
      ∀ fuel, a.ringLoop fuel now true = none ∧ a.nextRingTime toSecs now fuel = none) := by
  constructor
  · intro hmask
    obtain ⟨k, hk7, hacc, hmin⟩ := Alarm.search_index a now hmask
    have hne : a.daysOfWeek_ ≠ 0 := by
      obtain ⟨b, _, hb⟩ := hmask
      exact bitSet_ne_zero _ _ hb
    have hna := Alarm.occurrence_notAfter a now k hnow hacc
    refine ⟨k, hk7, ?_, ?_, ?_, hna, ?_, Alarm.week_back_iff a now k hk7 hacc hmin⟩
    · intro fuel hf
      exact Alarm.ringLoop_of_index a now k fuel hacc hmin hf
    · intro fuel hf
      apply Alarm.ringLoop_running
      intro j hj
      rw [Bool.true_and, Alarm.loopCond_true_iff]
      exact hmin j (by omega)
    · intro fuel hf
      rw [Alarm.nextRingTime_repeat toSecs now fuel a hen hne,
        Alarm.ringLoop_of_index a now k fuel hacc hmin (by omega)]
      rfl
    · exact hmono _ _ (QDateTime.ofDateTime_valid _ _) hnow hna
  · intro hne hnone
    have hrej : ∀ d : QDate, ¬ a.accepts now d := by
      intro d hd
      refine hnone _ ?_ hd.1
      rw [QDate.dayOfWeek_index]
      omega
    refine ⟨hrej, fun fuel => ?_⟩
    have hloop : a.ringLoop fuel now true = none := by
      apply Alarm.ringLoop_running
      intro j _
      rw [Bool.true_and, Alarm.loopCond_true_iff]
      exact hrej _
    refine ⟨hloop, ?_⟩
    rw [Alarm.nextRingTime_repeat toSecs now fuel a hen hne, hloop]
    rfl

theorem Alarm.nextRingTime_search_bound_witness :
    (∃ k : Nat, k ≤ 7 ∧
        (∀ fuel, k < fuel → weeklyAlarm.ringLoop fuel sampleNow true
          = some (sampleNow.addDays (-(k : Int)))) ∧
        (∀ fuel, fuel ≤ k → weeklyAlarm.ringLoop fuel sampleNow true = none) ∧
        (∀ fuel, 8 ≤ fuel → weeklyAlarm.nextRingTime (fixedOffsetSecs 0) sampleNow fuel =
          some (fixedOffsetSecs 0
            (QDateTime.ofDateTime (sampleNow.date.addDays (-(k : Int))) weeklyAlarm.alarmTime))) ∧
        QDateTime.notAfter
          (QDateTime.ofDateTime (sampleNow.date.addDays (-(k : Int))) weeklyAlarm.alarmTime)
          sampleNow ∧
        fixedOffsetSecs 0
          (QDateTime.ofDateTime (sampleNow.date.addDays (-(k : Int))) weeklyAlarm.alarmTime)
            ≤ fixedOffsetSecs 0 sampleNow ∧
        (k = 7 ↔ (bitSet weeklyAlarm.daysOfWeek_ (sampleNow.date.dayOfWeek - 1).toNat ∧
          (∀ b, b < 7 → bitSet weeklyAlarm.daysOfWeek_ b →
            b = (sampleNow.date.dayOfWeek - 1).toNat) ∧
          weeklyAlarm.alarmTime > sampleNow.time))) ∧
    ((∀ d : QDate, ¬ maskedAlarm.accepts sampleNow d) ∧
      ∀ fuel, maskedAlarm.ringLoop fuel sampleNow true = none ∧
        maskedAlarm.nextRingTime (fixedOffsetSecs 0) sampleNow fuel = none) :=
  ⟨(Alarm.nextRingTime_search_bound (fixedOffsetSecs 0) sampleNow weeklyAlarm (by decide)
      (by decide) (fixedOffsetSecs_monotone 0)).1 ⟨2, by decide, by decide⟩,
   (Alarm.nextRingTime_search_bound (fixedOffsetSecs 0) sampleNow maskedAlarm (by decide)
      (by decide) (fixedOffsetSecs_monotone 0)).2 (by decide) (by decide)⟩

/-- C2: an enabled alarm that does not repeat (mask 0), with hour 0-23,
minute 0-59 and snooze seconds 0-59, whose time of day is at or after the
current time of day, makes `nextRingTime` return the epoch seconds of today
at that time of day (the branch that returns the sentinel -1 is not taken). -/
theorem Alarm.nextRingTime_once_pending (toSecs : QDateTime → Int) (now : QDateTime)
    (fuel : Nat) (a : Alarm) (hen : a.enabled_ = true) (hmask : a.daysOfWeek_ = 0)
    (hh : 0 ≤ a.hours_ ∧ a.hours_ ≤ 23) (hm : 0 ≤ a.minutes_ ∧ a.minutes_ ≤ 59)
    (hs : 0 ≤ a.snooze_ ∧ a.snooze_ ≤ 59)
    (hge : now.time.mds ≤ (a.hours_ * 3600 + a.minutes_ * 60 + a.snooze_) * 1000) :
    a.alarmTime = ⟨(a.hours_ * 3600 + a.minutes_ * 60 + a.snooze_) * 1000⟩ ∧
    a.alarmTime ≥ now.time ∧
    a.nextRingTime toSecs now fuel =
      some (toSecs ⟨now.date, ⟨(a.hours_ * 3600 + a.minutes_ * 60 + a.snooze_) * 1000⟩⟩) := by
  have hvalid : QTime.isValidHMS a.hours_ a.minutes_ a.snooze_ 0 = true := by
    simp only [QTime.isValidHMS, Bool.and_eq_true, decide_eq_true_eq]
    omega
  have htime : a.alarmTime = ⟨(a.hours_ * 3600 + a.minutes_ * 60 + a.snooze_) * 1000⟩ := by
    simp [Alarm.alarmTime, QTime.ofHMS, hvalid]
  have hge2 : a.alarmTime ≥ now.time := by
    rw [ge_iff_le, QTime.le_def, htime]
    exact hge
  refine ⟨htime, hge2, ?_⟩
  have hv : a.alarmTime.isValid = true := by
    rw [htime]
    simp only [QTime.isValid, Bool.and_eq_true, decide_eq_true_eq]
    omega
  unfold Alarm.nextRingTime
  simp only [hen, Bool.not_true, Bool.false_eq_true, if_false, hmask, beq_self_eq_true, if_true,
    hge2, QDateTime.ofDateTime, hv]
  rw [htime]

theorem Alarm.nextRingTime_once_pending_witness :
    pendingAlarm.alarmTime = ⟨25260000⟩ ∧ pendingAlarm.alarmTime ≥ sampleNow.time ∧
    pendingAlarm.nextRingTime (fixedOffsetSecs 0) sampleNow 0 = some 1591772460 :=
  Alarm.nextRingTime_once_pending (fixedOffsetSecs 0) sampleNow 0 pendingAlarm (by decide)
    (by decide) (by decide) (by decide) (by decide) (by decide)

/-- C3: an enabled alarm that does not repeat (mask 0) and whose alarm time is
strictly before the current time of day makes `nextRingTime` return -1. -/
theorem Alarm.nextRingTime_once_missed (toSecs : QDateTime → Int) (now : QDateTime)
    (fuel : Nat) (a : Alarm) (hen : a.enabled_ = true) (hmask : a.daysOfWeek_ = 0)
    (hlt : a.alarmTime < now.time) : a.nextRingTime toSecs now fuel = some (-1) := by
  have hnot : ¬ a.alarmTime ≥ now.time := by
    rw [ge_iff_le, QTime.le_def]
    rw [QTime.lt_def] at hlt
    omega
  unfold Alarm.nextRingTime
  simp only [hen, Bool.not_true, Bool.false_eq_true, if_false, hmask, beq_self_eq_true, if_true,
    hnot]

theorem Alarm.nextRingTime_once_missed_witness :
    sampleAlarm.nextRingTime (fixedOffsetSecs 0) sampleNow 0 = some (-1) :=
  Alarm.nextRingTime_once_missed (fixedOffsetSecs 0) sampleNow 0 sampleAlarm (by decide)
    (by decide) (by decide)

/-- C4: a disabled alarm makes `nextRingTime` return -1, whatever its other
fields and the current date-time are. -/
theorem Alarm.nextRingTime_disabled (toSecs : QDateTime → Int) (now : QDateTime)
    (fuel : Nat) (a : Alarm) (hen : a.enabled_ = false) :
    a.nextRingTime toSecs now fuel = some (-1) := by
  unfold Alarm.nextRingTime
  simp [hen]

theorem Alarm.nextRingTime_disabled_witness :
    disabledAlarm.nextRingTime (fixedOffsetSecs 0) sampleNow 0 = some (-1) :=
  Alarm.nextRingTime_disabled (fixedOffsetSecs 0) sampleNow 0 disabledAlarm (by decide)

/-- C5: at the state reached by one five-minute snooze of the 07:00 one-shot
alarm (snooze offset 300) and the current time 07:00:30, `QTime(7, 0, 300)` is
the invalid time and `nextRingTime` returns -1, although 07:05:00 is still ahead
today (its epoch seconds would be 1591772700 in UTC). -/
theorem Alarm.nextRingTime_snoozed_once :
    snoozedAlarm.enabled_ = true ∧ snoozedAlarm.daysOfWeek_ = 0 ∧
    snoozedAlarm.hours_ = 7 ∧ snoozedAlarm.minutes_ = 0 ∧ snoozedAlarm.snooze_ = 300 ∧
    sampleNow.time = QTime.ofHMS 7 0 30 0 ∧
    snoozedAlarm.alarmTime = ⟨-1⟩ ∧
    snoozedAlarm.nextRingTime (fixedOffsetSecs 0) sampleNow 8 = some (-1) ∧
    fixedOffsetSecs 0 ⟨sampleNow.date, QTime.ofHMS 7 5 0 0⟩ = 1591772700 := by
  decide

/-- Every one-shot alarm whose snooze offset is a minute or more has an invalid
alarm time, and `nextRingTime` returns -1 for it at any valid current time. -/
theorem Alarm.nextRingTime_once_long_snooze (toSecs : QDateTime → Int) (now : QDateTime)
    (fuel : Nat) (a : Alarm) (hen : a.enabled_ = true) (hmask : a.daysOfWeek_ = 0)
    (hs : 60 ≤ a.snooze_) (hnow : now.time.isValid = true) :
    a.alarmTime = ⟨-1⟩ ∧ a.nextRingTime toSecs now fuel = some (-1) := by
  have hinv : QTime.isValidHMS a.hours_ a.minutes_ a.snooze_ 0 = false := by
    simp only [QTime.isValidHMS, Bool.and_eq_false_iff, decide_eq_false_iff_not,
      Bool.and_eq_true, decide_eq_true_eq]
    omega
  have htime : a.alarmTime = ⟨-1⟩ := by
    simp [Alarm.alarmTime, QTime.ofHMS, hinv]
  refine ⟨htime, ?_⟩
  simp only [QTime.isValid, Bool.and_eq_true, decide_eq_true_eq] at hnow
  have hnot : ¬ a.alarmTime ≥ now.time := by
    rw [ge_iff_le, QTime.le_def, htime]
    show ¬ now.time.mds ≤ -1
    omega
  unfold Alarm.nextRingTime
  simp only [hen, Bool.not_true, Bool.false_eq_true, if_false, hmask, beq_self_eq_true, if_true,
    hnot]

/-- C7, counterexample: dismissing the alarm snoozed once (snooze offset and
last snooze both 300) leaves the snooze offset at 300; only the last snooze
is 0, and the alarm time is not the nominal 07:00:00. -/
theorem Alarm.handleDismiss_keeps_snooze_sample :
    snoozedAlarm.snooze_ = 300 ∧ snoozedAlarm.lastSnooze_ = 300 ∧
    snoozedAlarm.handleDismiss.1.lastSnooze_ = 0 ∧
    snoozedAlarm.handleDismiss.1.snooze_ = 300 ∧
    ¬ (snoozedAlarm.handleDismiss.1.snooze_ = 0 ∧ snoozedAlarm.handleDismiss.1.lastSnooze_ = 0) ∧
    snoozedAlarm.handleDismiss.1.alarmTime ≠ QTime.ofHMS 7 0 0 0 := by
  decide

/-- C7, amended: after `handleDismiss` the last snooze is 0 and the snooze
offset is the one from before the call (so it is 0 exactly when it already
was), the alarm time of the next `nextRingTime` is unchanged, the notification
is closed, the player is stopped and the alarm is saved. -/
theorem Alarm.handleDismiss_clears_lastSnooze (a : Alarm) :
    a.handleDismiss.1.lastSnooze_ = 0 ∧
    a.handleDismiss.1.snooze_ = a.snooze_ ∧
    (a.handleDismiss.1.snooze_ = 0 ↔ a.snooze_ = 0) ∧
    a.handleDismiss.1.alarmTime = a.alarmTime ∧
    a.handleDismiss.1.alarmNotifOpen = false ∧
    a.handleDismiss.1.ringtonePlayer.playing = false ∧
    a.handleDismiss.2 = [Effect.playerStop, Effect.writeEntry a.uuid_ a.handleDismiss.1.serialize] := by
  simp [Alarm.handleDismiss, Alarm.setLastSnooze, Alarm.alarmTime, Alarm.save]

/-- C8: the alarm with last ring 1591772400, serialized and constructed again
(member defaults those of the sample alarm, last ring 0), comes back with last
ring 0: `serialize` writes the member `lastAlarm`, the constructor never reads
it. Every other field is restored. -/
theorem Alarm.roundtrip_loses_lastAlarm :
    rungAlarm.lastAlarm_ = 1591772400 ∧
    rungAlarm.serialize ≠ Serialized.empty ∧
    (Alarm.ofSerialized sampleAlarm "\x7b00000000-0000-0000-0000-000000000000\x7d"
      rungAlarm.serialize).lastAlarm_ = 0 ∧
    (Alarm.ofSerialized sampleAlarm "\x7b00000000-0000-0000-0000-000000000000\x7d"
      rungAlarm.serialize).lastAlarm_ ≠ rungAlarm.lastAlarm_ ∧
    Alarm.ofSerialized sampleAlarm "\x7b00000000-0000-0000-0000-000000000000\x7d" rungAlarm.serialize
      = { rungAlarm with lastAlarm_ := 0 } := by
  decide

/-- Whatever the member defaults are, the reconstructed alarm has the default
last ring, not the serialized one. -/
theorem Alarm.ofSerialized_lastAlarm (dflt : Alarm) (fresh : String) (a : Alarm) :
    (Alarm.ofSerialized dflt fresh a.serialize).lastAlarm_ = dflt.lastAlarm_ := by
  simp only [Alarm.serialize, Alarm.ofSerialized]

/-- The eleven members that the constructor reads are restored by the round trip
(for values that fit an `int`). -/
theorem Alarm.roundtrip_read_fields (dflt : Alarm) (fresh : String) (a : Alarm)
    (h1 : fitsInt a.minutes_) (h2 : fitsInt a.hours_) (h3 : fitsInt a.daysOfWeek_)
    (h4 : fitsInt a.snooze_) (h5 : fitsInt a.lastSnooze_) (h6 : fitsInt a.volume_) :
    (Alarm.ofSerialized dflt fresh a.serialize).uuid_ = a.uuid_ ∧
    (Alarm.ofSerialized dflt fresh a.serialize).name_ = a.name_ ∧
    (Alarm.ofSerialized dflt fresh a.serialize).minutes_ = a.minutes_ ∧
    (Alarm.ofSerialized dflt fresh a.serialize).hours_ = a.hours_ ∧
    (Alarm.ofSerialized dflt fresh a.serialize).daysOfWeek_ = a.daysOfWeek_ ∧
    (Alarm.ofSerialized dflt fresh a.serialize).enabled_ = a.enabled_ ∧
    (Alarm.ofSerialized dflt fresh a.serialize).snooze_ = a.snooze_ ∧
    (Alarm.ofSerialized dflt fresh a.serialize).lastSnooze_ = a.lastSnooze_ ∧
    (Alarm.ofSerialized dflt fresh a.serialize).ringtoneName_ = a.ringtoneName_ ∧
    (Alarm.ofSerialized dflt fresh a.serialize).audioPath_ = a.audioPath_ ∧
    (Alarm.ofSerialized dflt fresh a.serialize).volume_ = a.volume_ := by
  unfold fitsInt at h1 h2 h3 h4 h5 h6
  simp [Alarm.serialize, Alarm.ofSerialized, QJsonObject.set, QJsonObject.get, QJsonValue.toInt,
    QJsonValue.toBool, QJsonValue.toString, List.find?, h1, h2, h3, h4, h5, h6]

/-- For an enabled repeating alarm whose hour, minute and snooze seconds form a
valid time of day (0-23, 0-59, 0-59), `nextRingTime` returns the epoch seconds
of exactly that time of day on the most recent date on or before today whose
weekday bit is set and that is not today unless the time of day is at or before
the current time; no later date up to today qualifies. -/
theorem Alarm.nextRingTime_repeat_valid_time (toSecs : QDateTime → Int) (now : QDateTime)
    (fuel : Nat) (a : Alarm) (hen : a.enabled_ = true)
    (hmask : ∃ b, b < 7 ∧ bitSet a.daysOfWeek_ b) (hfuel : 8 ≤ fuel)
    (hh : 0 ≤ a.hours_ ∧ a.hours_ ≤ 23) (hm : 0 ≤ a.minutes_ ∧ a.minutes_ ≤ 59)
    (hs : 0 ≤ a.snooze_ ∧ a.snooze_ ≤ 59) :
    ∃ d : QDate,
      a.nextRingTime toSecs now fuel =
        some (toSecs ⟨d, ⟨(a.hours_ * 3600 + a.minutes_ * 60 + a.snooze_) * 1000⟩⟩) ∧
      d.jd ≤ now.date.jd ∧
      (bitSet a.daysOfWeek_ (d.dayOfWeek - 1).toNat ∧
        (d ≠ now.date ∨
          (a.hours_ * 3600 + a.minutes_ * 60 + a.snooze_) * 1000 ≤ now.time.mds)) ∧
      (∀ d2 : QDate, d.jd < d2.jd → d2.jd ≤ now.date.jd →
        ¬ (bitSet a.daysOfWeek_ (d2.dayOfWeek - 1).toNat ∧
          (d2 ≠ now.date ∨
            (a.hours_ * 3600 + a.minutes_ * 60 + a.snooze_) * 1000 ≤ now.time.mds))) ∧
      (1 ≤ d.dayOfWeek ∧ d.dayOfWeek ≤ 7) := by
  have hvalid : QTime.isValidHMS a.hours_ a.minutes_ a.snooze_ 0 = true := by
    simp only [QTime.isValidHMS, Bool.and_eq_true, decide_eq_true_eq]
    omega
  have htime : a.alarmTime = ⟨(a.hours_ * 3600 + a.minutes_ * 60 + a.snooze_) * 1000⟩ := by
    simp [Alarm.alarmTime, QTime.ofHMS, hvalid]
  have hv : a.alarmTime.isValid = true := by
    rw [htime]
    simp only [QTime.isValid, Bool.and_eq_true, decide_eq_true_eq]
    omega
  have hacc_iff : ∀ d : QDate, a.accepts now d ↔
      (bitSet a.daysOfWeek_ (d.dayOfWeek - 1).toNat ∧
        (d ≠ now.date ∨
          (a.hours_ * 3600 + a.minutes_ * 60 + a.snooze_) * 1000 ≤ now.time.mds)) := by
    intro d
    unfold Alarm.accepts
    rw [QTime.le_def, htime]
  obtain ⟨k, hk7, hacc, hmin⟩ := Alarm.search_index a now hmask
  have hne : a.daysOfWeek_ ≠ 0 := by
    obtain ⟨b, _, hb⟩ := hmask
    exact bitSet_ne_zero _ _ hb
  refine ⟨now.date.addDays (-(k : Int)), ?_, ?_, (hacc_iff _).1 hacc, ?_,
    QDate.dayOfWeek_range _⟩
  · rw [Alarm.nextRingTime_repeat toSecs now fuel a hen hne,
      Alarm.ringLoop_of_index a now k fuel hacc hmin (by omega)]
    simp only [Option.map_some', QDateTime.ofDateTime, QDateTime.addDays, hv, if_true]
    rw [htime]
  · simp only [QDate.addDays]
    omega
  · intro d2 h1 h2
    rw [← hacc_iff, QDate.eq_addDays now.date d2 h2]
    apply hmin
    simp only [QDate.addDays] at h1
    omega

/-- C1: at the weekly (Wednesday) 07:01 alarm after one five-minute snooze
(snooze offset 300, so the alarm's time of day is 07:06:00) and the current time
Wednesday 07:00:30, `QTime(7, 1, 300)` is the invalid time, the first-day test
`alarmTime > now.time()` is false, today is accepted and `nextRingTime` returns
today at midnight (1591747200 in UTC). The most recent date that qualifies for
07:06:00 is the Wednesday before (Julian day 2459004), whose occurrence is
1591167960. -/
theorem Alarm.nextRingTime_snoozed_weekly :
    snoozedWeeklyAlarm.enabled_ = true ∧ snoozedWeeklyAlarm.daysOfWeek_ = 4 ∧
    snoozedWeeklyAlarm.hours_ = 7 ∧ snoozedWeeklyAlarm.minutes_ = 1 ∧
    snoozedWeeklyAlarm.snooze_ = 300 ∧
    sampleNow.date.dayOfWeek = 3 ∧ sampleNow.time = QTime.ofHMS 7 0 30 0 ∧
    snoozedWeeklyAlarm.alarmTime = ⟨-1⟩ ∧
    snoozedWeeklyAlarm.ringLoop 8 sampleNow true = some sampleNow ∧
    snoozedWeeklyAlarm.nextRingTime (fixedOffsetSecs 0) sampleNow 8 = some 1591747200 ∧
    fixedOffsetSecs 0 ⟨sampleNow.date, QTime.ofHMS 0 0 0 0⟩ = 1591747200 ∧
    sampleNow.time < QTime.ofHMS 7 6 0 0 ∧
    (sampleNow.date.addDays (-7)).jd = 2459004 ∧
    fixedOffsetSecs 0 ⟨sampleNow.date.addDays (-7), QTime.ofHMS 7 6 0 0⟩ = 1591167960 := by
  decide

/-- Values in range are left alone by 32-bit arithmetic. -/
theorem wrapInt_of_fitsInt (x : Int) (h : fitsInt x) : wrapInt x = x := by
  unfold fitsInt at h
  unfold wrapInt
  omega

/-- One snooze: the stored offsets are the wrapped sum, and the alarm is enabled. -/
theorem Alarm.handleSnooze_fields (settings : KClockSettings) (a : Alarm) :
    (a.handleSnooze settings).1.lastSnooze_
      = wrapInt (a.lastSnooze_ + wrapInt (60 * settings.alarmSnoozeLength)) ∧
    (a.handleSnooze settings).1.snooze_
      = wrapInt (a.lastSnooze_ + wrapInt (60 * settings.alarmSnoozeLength)) ∧
    (a.handleSnooze settings).1.enabled_ = true := by
  simp [Alarm.handleSnooze, Alarm.setSnooze, Alarm.setLastSnooze, Alarm.setEnabled]

/-- Between two values in range, every step of an arithmetic progression is in range. -/
theorem fitsInt_between (s c : Int) (n j : Nat) (hj : j ≤ n) (h0 : fitsInt s)
    (hn : fitsInt (s + n * c)) : fitsInt (s + j * c) := by
  unfold fitsInt at *
  have hjn : (j : Int) ≤ n := by exact_mod_cast hj
  have hj0 : (0 : Int) ≤ j := by exact_mod_cast Nat.zero_le j
  rcases le_or_lt 0 c with hc | hc
  · have h1 : (j : Int) * c ≤ n * c := mul_le_mul_of_nonneg_right hjn hc
    have h2 : 0 ≤ (j : Int) * c := mul_nonneg hj0 hc
    omega
  · have h1 : (n : Int) * c ≤ j * c := mul_le_mul_of_nonpos_right hjn (le_of_lt hc)
    have h2 : (j : Int) * c ≤ 0 := mul_nonpos_of_nonneg_of_nonpos hj0 (le_of_lt hc)
    omega

/-- Repeated snoozes add the snooze length each time while the sums stay in range. -/
theorem Alarm.handleSnooze_iterate (settings : KClockSettings) (a : Alarm) (n : Nat)
    (hL : fitsInt (60 * settings.alarmSnoozeLength)) (h0 : fitsInt a.lastSnooze_)
    (hn : fitsInt (a.lastSnooze_ + n * (60 * settings.alarmSnoozeLength))) :
    ∀ j, j ≤ n → ((fun x => (Alarm.handleSnooze settings x).1)^[j] a).lastSnooze_
      = a.lastSnooze_ + j * (60 * settings.alarmSnoozeLength) := by
  intro j
  induction j with
  | zero => intro _; simp
  | succ j ih =>
    intro hj
    rw [Function.iterate_succ_apply', (Alarm.handleSnooze_fields settings _).1, ih (by omega),
      wrapInt_of_fitsInt _ hL]
    have hfit := fitsInt_between a.lastSnooze_ (60 * settings.alarmSnoozeLength) n (j + 1) hj h0 hn
    have heq : a.lastSnooze_ + (j : Int) * (60 * settings.alarmSnoozeLength)
        + 60 * settings.alarmSnoozeLength
        = a.lastSnooze_ + ((j + 1 : Nat) : Int) * (60 * settings.alarmSnoozeLength) := by
      push_cast; ring
    rw [heq, wrapInt_of_fitsInt _ hfit]

/-- C6, counterexample: with a last snooze of 2147483600 and a snooze length of
five minutes the `int` sum overflows; after `handleSnooze` the last snooze and
the snooze offset are -2147483396, not 2147483600 + 60 * 5. -/
theorem Alarm.handleSnooze_overflow_sample :
    fitsInt overflowAlarm.lastSnooze_ ∧ overflowAlarm.lastSnooze_ = 2147483600 ∧
    sampleSettings.alarmSnoozeLength = 5 ∧
    (overflowAlarm.handleSnooze sampleSettings).1.lastSnooze_ = -2147483396 ∧
    (overflowAlarm.handleSnooze sampleSettings).1.snooze_ = -2147483396 ∧
    ¬ ((overflowAlarm.handleSnooze sampleSettings).1.lastSnooze_
        = overflowAlarm.lastSnooze_ + 60 * sampleSettings.alarmSnoozeLength) := by
  decide

/-- C6, amended: when `60 * L` and the old last snooze plus `60 * L` fit an
`int`, after `handleSnooze` the last snooze is the old last snooze plus
`60 * L`, the snooze offset has that same value and the alarm is enabled.
After `n + 1` snoozes in a row both are the starting last snooze plus
`(n + 1) * 60 * L` as long as the start and that sum fit an `int`; starting
from a last snooze of 0 both are `(n + 1) * 60 * L`. -/
theorem Alarm.handleSnooze_accumulates (settings : KClockSettings) (a : Alarm)
    (hL : fitsInt (60 * settings.alarmSnoozeLength))
    (h1 : fitsInt (a.lastSnooze_ + 60 * settings.alarmSnoozeLength)) :
    ((a.handleSnooze settings).1.lastSnooze_ = a.lastSnooze_ + 60 * settings.alarmSnoozeLength ∧
     (a.handleSnooze settings).1.snooze_ = a.lastSnooze_ + 60 * settings.alarmSnoozeLength ∧
     (a.handleSnooze settings).1.enabled_ = true) ∧
    (∀ n : Nat, fitsInt a.lastSnooze_ →
      fitsInt (a.lastSnooze_ + (n + 1) * 60 * settings.alarmSnoozeLength) →
      (((fun x => (Alarm.handleSnooze settings x).1)^[n + 1] a).lastSnooze_
          = a.lastSnooze_ + (n + 1) * 60 * settings.alarmSnoozeLength ∧
       ((fun x => (Alarm.handleSnooze settings x).1)^[n + 1] a).snooze_
          = a.lastSnooze_ + (n + 1) * 60 * settings.alarmSnoozeLength ∧
       ((fun x => (Alarm.handleSnooze settings x).1)^[n + 1] a).enabled_ = true)) ∧
    (∀ n : Nat, fitsInt ((n + 1) * 60 * settings.alarmSnoozeLength) →
      (((fun x => (Alarm.handleSnooze settings x).1)^[n + 1] (a.setLastSnooze 0)).lastSnooze_
          = (n + 1) * 60 * settings.alarmSnoozeLength ∧
       ((fun x => (Alarm.handleSnooze settings x).1)^[n + 1] (a.setLastSnooze 0)).snooze_
          = (n + 1) * 60 * settings.alarmSnoozeLength)) := by
  have step := Alarm.handleSnooze_fields settings
  have iter : ∀ (x : Alarm) (n : Nat), fitsInt x.lastSnooze_ →
      fitsInt (x.lastSnooze_ + (n + 1) * 60 * settings.alarmSnoozeLength) →
      (((fun x => (Alarm.handleSnooze settings x).1)^[n + 1] x).lastSnooze_
          = x.lastSnooze_ + (n + 1) * 60 * settings.alarmSnoozeLength ∧
       ((fun x => (Alarm.handleSnooze settings x).1)^[n + 1] x).snooze_
          = x.lastSnooze_ + (n + 1) * 60 * settings.alarmSnoozeLength ∧
       ((fun x => (Alarm.handleSnooze settings x).1)^[n + 1] x).enabled_ = true) := by
    intro x n h0 hn
    have hn2 : fitsInt (x.lastSnooze_ + ((n + 1 : Nat) : Int) * (60 * settings.alarmSnoozeLength)) := by
      have : x.lastSnooze_ + ((n + 1 : Nat) : Int) * (60 * settings.alarmSnoozeLength)
          = x.lastSnooze_ + (n + 1) * 60 * settings.alarmSnoozeLength := by
        push_cast; ring
      rw [this]; exact hn
    have hlast := Alarm.handleSnooze_iterate settings x (n + 1) hL h0 hn2 (n + 1) (le_refl _)
    have hlast2 : ((fun x => (Alarm.handleSnooze settings x).1)^[n + 1] x).lastSnooze_
        = x.lastSnooze_ + (n + 1) * 60 * settings.alarmSnoozeLength := by
      rw [hlast]; push_cast; ring
    refine ⟨hlast2, ?_, ?_⟩
    · rw [← hlast2, Function.iterate_succ_apply', (step _).1, (step _).2.1]
    · rw [Function.iterate_succ_apply', (step _).2.2]
  refine ⟨?_, fun n => iter a n, fun n hn => ?_⟩
  · obtain ⟨s1, s2, s3⟩ := step a
    rw [s1, s2, wrapInt_of_fitsInt _ hL, wrapInt_of_fitsInt _ h1]
    exact ⟨rfl, rfl, s3⟩
  · have h := iter (a.setLastSnooze 0) n (by simp [Alarm.setLastSnooze, fitsInt])
      (by simpa [Alarm.setLastSnooze] using hn)
    simp only [Alarm.setLastSnooze, zero_add] at h
    exact ⟨h.1, h.2.1⟩

theorem Alarm.handleSnooze_accumulates_witness :
    ((sampleAlarm.handleSnooze sampleSettings).1.lastSnooze_ = 300 ∧
     (sampleAlarm.handleSnooze sampleSettings).1.snooze_ = 300 ∧
     (sampleAlarm.handleSnooze sampleSettings).1.enabled_ = true) ∧
    (((fun x => (Alarm.handleSnooze sampleSettings x).1)^[3] sampleAlarm).lastSnooze_ = 900 ∧
     ((fun x => (Alarm.handleSnooze sampleSettings x).1)^[3] sampleAlarm).snooze_ = 900 ∧
     ((fun x => (Alarm.handleSnooze sampleSettings x).1)^[3] sampleAlarm).enabled_ = true) :=
  ⟨(Alarm.handleSnooze_accumulates sampleSettings sampleAlarm (by decide) (by decide)).1,
   (Alarm.handleSnooze_accumulates sampleSettings sampleAlarm (by decide) (by decide)).2.1 2
     (by decide) (by decide)⟩

/-- C9, counterexample: with the deadline 0 on an open timer descriptor the
timer is disarmed, `poll` never returns and `wait` emits neither signal; the
same happens with a deadline ahead when `timerfd_create` had failed
(descriptor -1, which `poll` ignores). -/
theorem AlarmWaitWorker.wait_blocks_sample :
    0 ≤ epochWorker.m_waitEndTime ∧
    epochWorker.wait quietHost
      = ⟨[WaitEffect.timerfdSettime 3 0, WaitEffect.poll 3], false⟩ ∧
    (epochWorker.wait quietHost).trace.count WaitEffect.error
      + (epochWorker.wait quietHost).trace.count WaitEffect.finished = 0 ∧
    0 ≤ failedWorker.m_waitEndTime ∧
    failedWorker.wait quietHost
      = ⟨[WaitEffect.timerfdSettime (-1) 1591772700, WaitEffect.poll (-1)], false⟩ ∧
    (failedWorker.wait quietHost).trace.count WaitEffect.error
      + (failedWorker.wait quietHost).trace.count WaitEffect.finished = 0 := by
  decide

/-- C9, amended: with a negative deadline `wait` returns at once and does
nothing (no timer armed, no poll, no signal). With a positive deadline and a
descriptor that is not negative, `poll` returns, and `wait` then emits `error`
alone when poll reports POLLNVAL and `finished` alone otherwise, so exactly one
of the two signals. Whatever the deadline, at most one of the two signals is
emitted. -/
theorem AlarmWaitWorker.wait_signals (h : Host) (w : AlarmWaitWorker) :
    (w.m_waitEndTime < 0 → w.wait h = ⟨[], true⟩) ∧
    (0 < w.m_waitEndTime → 0 ≤ w.m_timerFd →
      ∃ revents : Int,
        h.poll w.m_timerFd (h.timerfdSettime w.m_timerFd w.m_waitEndTime) = some revents ∧
        (w.wait h).returned = true ∧
        ((bits32 revents &&& POLLNVAL) ≠ 0 →
          (w.wait h).trace = [WaitEffect.timerfdSettime w.m_timerFd w.m_waitEndTime,
            WaitEffect.poll w.m_timerFd, WaitEffect.error]) ∧
        ((bits32 revents &&& POLLNVAL) = 0 →
          (w.wait h).trace = [WaitEffect.timerfdSettime w.m_timerFd w.m_waitEndTime,
            WaitEffect.poll w.m_timerFd, WaitEffect.finished]) ∧
        (w.wait h).trace.count WaitEffect.error
          + (w.wait h).trace.count WaitEffect.finished = 1) ∧
    (w.wait h).trace.count WaitEffect.error
      + (w.wait h).trace.count WaitEffect.finished ≤ 1 := by
  refine ⟨fun hneg => by simp [AlarmWaitWorker.wait, hneg], fun hpos hfd => ?_, ?_⟩
  · have hn : ¬ w.m_waitEndTime < 0 := by omega
    have hfd2 : ¬ w.m_timerFd < 0 := by omega
    have hpoll : ∃ revents : Int,
        h.poll w.m_timerFd (h.timerfdSettime w.m_timerFd w.m_waitEndTime) = some revents := by
      unfold Host.poll Host.timerfdSettime
      by_cases ho : h.timerOpen = true
      · simp [hfd2, ho, hfd, hpos]
      · simp [hfd2, ho]
    obtain ⟨revents, hr⟩ := hpoll
    refine ⟨revents, hr, ?_⟩
    by_cases hp : (bits32 revents &&& POLLNVAL) = 0
    · simp [AlarmWaitWorker.wait, hn, hr, hp]
    · simp [AlarmWaitWorker.wait, hn, hr, hp]
  · by_cases hneg : w.m_waitEndTime < 0
    · simp [AlarmWaitWorker.wait, hneg]
    · cases hr : h.poll w.m_timerFd (h.timerfdSettime w.m_timerFd w.m_waitEndTime) with
      | none => simp [AlarmWaitWorker.wait, hneg, hr]
      | some revents =>
        by_cases hp : (bits32 revents &&& POLLNVAL) = 0
        · simp [AlarmWaitWorker.wait, hneg, hr, hp]
        · simp [AlarmWaitWorker.wait, hneg, hr, hp]

theorem AlarmWaitWorker.wait_signals_witness :
    ∃ revents : Int,
      quietHost.poll armedWorker.m_timerFd
        (quietHost.timerfdSettime armedWorker.m_timerFd armedWorker.m_waitEndTime)
          = some revents ∧
      (armedWorker.wait quietHost).returned = true ∧
      ((bits32 revents &&& POLLNVAL) ≠ 0 →
        (armedWorker.wait quietHost).trace
          = [WaitEffect.timerfdSettime armedWorker.m_timerFd armedWorker.m_waitEndTime,
            WaitEffect.poll armedWorker.m_timerFd, WaitEffect.error]) ∧
      ((bits32 revents &&& POLLNVAL) = 0 →
        (armedWorker.wait quietHost).trace
          = [WaitEffect.timerfdSettime armedWorker.m_timerFd armedWorker.m_waitEndTime,
            WaitEffect.poll armedWorker.m_timerFd, WaitEffect.finished]) ∧
      (armedWorker.wait quietHost).trace.count WaitEffect.error
        + (armedWorker.wait quietHost).trace.count WaitEffect.finished = 1 :=
  (AlarmWaitWorker.wait_signals quietHost armedWorker).2.1 (by decide) (by decide)

end KClock
